import Mathlib

/-!
Shallow embedding of the crypkit-tracker backend core:
decimal utilities, portfolio repository and service, CoinGecko client
with its cache-aside layer, Redis cache access, portfolio summary
arithmetic, and the token-bucket rate limiter.

Each definition mirrors one Python function of the repository.
Machine decimals (Python `decimal.Decimal`) are modelled exactly as a
signed integer coefficient with a count of fractional digits; decimal
arithmetic in the source is exact for the magnitudes involved, so no
context rounding is modelled.  Wall-clock timestamps are natural or
rational numbers; async suspension points are sequentialised (each
service call already runs its critical sections under a lock or a
nested transaction).
-/

namespace Crypkit

/-- Model of Python `decimal.Decimal`: value is `m / 10 ^ e`.
Addition in `decimal` aligns exponents and adds coefficients exactly,
which `Dec.add` reproduces. -/
structure Dec where
  m : Int
  e : Nat
deriving Repr, DecidableEq

/-- Rational value denoted by a decimal. -/
def Dec.toRat (d : Dec) : ℚ := (d.m : ℚ) / (10 : ℚ) ^ d.e

/-- Exact decimal addition: align to the larger fractional-digit count. -/
def Dec.add (a b : Dec) : Dec :=
  let e := max a.e b.e
  ⟨a.m * 10 ^ (e - a.e) + b.m * 10 ^ (e - b.e), e⟩

theorem Dec.pow_div_helper {i j : Nat} (h : i ≤ j) :
    (10 : ℚ) ^ (j - i) * (10 : ℚ) ^ i = (10 : ℚ) ^ j := by
  rw [← pow_add, Nat.sub_add_cancel h]

/-- Decimal addition is exact: it denotes rational addition. -/
theorem Dec.toRat_add (a b : Dec) : (a.add b).toRat = a.toRat + b.toRat := by
  unfold Dec.add Dec.toRat
  have h10 : ∀ k : Nat, ((10 : ℚ) ^ k) ≠ 0 := fun k => pow_ne_zero k (by norm_num)
  have ha := Dec.pow_div_helper (le_max_left a.e b.e)
  have hb := Dec.pow_div_helper (le_max_right a.e b.e)
  field_simp
  linear_combination ((a.m : ℚ) * (10 : ℚ) ^ b.e) * ha + ((b.m : ℚ) * (10 : ℚ) ^ a.e) * hb

/-- Parse one decimal digit. -/
def digitVal? (c : Char) : Option Nat :=
  if c.isDigit then some (c.toNat - 48) else none

/-- Parse a non-empty run of digits into a natural number. -/
def parseDigits? : List Char → Option Nat
  | [] => none
  | cs => cs.foldl (fun acc c => match acc, digitVal? c with
      | some n, some d => some (n * 10 + d)
      | _, _ => none) (some 0)

/-- Model of the `Decimal(string)` constructor for plain decimal literals
(optional sign, integer digits, optional fraction). Exponent notation is
not used by the repository inputs and is not modelled. -/
def Dec.ofString? (s : String) : Option Dec :=
  let (neg, body) :=
    match s.data with
    | '-' :: r => (true, r)
    | r => (false, r)
  let intPart := body.takeWhile (fun c => c ≠ '.')
  let rest := body.dropWhile (fun c => c ≠ '.')
  let sign : Int := if neg then -1 else 1
  match rest with
  | [] =>
    match parseDigits? intPart with
    | some n => some ⟨sign * n, 0⟩
    | none => none
  | '.' :: frac =>
    if frac.any (fun c => c = '.') then none
    else
      match intPart, frac with
      | [], [] => none
      | [], f =>
        match parseDigits? f with
        | some fn => some ⟨sign * fn, f.length⟩
        | none => none
      | ip, [] =>
        match parseDigits? ip with
        | some n => some ⟨sign * n, 0⟩
        | none => none
      | ip, f =>
        match parseDigits? ip, parseDigits? f with
        | some n, some fn => some ⟨sign * (n * 10 ^ f.length + fn), f.length⟩
        | _, _ => none
  | _ => none

/-- Values accepted by `standardize_decimal` (`DecimalValue` in
`decimal_utils.py`). The `float` member of the Python alias is omitted:
no call site in the repository passes a binary float. -/
inductive DecimalValue where
  | dec (d : Dec)
  | str (s : String)
  | int (n : Int)
deriving Repr, DecidableEq

/-- Model of `standardize_decimal`: a `Decimal` passes through unchanged,
everything else is converted through its string form; a failed conversion
raises `ValueError`, modelled as `none`. -/
def standardize_decimal : DecimalValue → Option Dec
  | .dec d => some d
  | .str s => Dec.ofString? s
  | .int n => some ⟨n, 0⟩

/-- Database row of the `coins` table (`db/models.py`). The 24h change
is stored as a machine float in the source; it is modelled as an exact
rational, which preserves which field is written and with what datum. -/
structure Coin where
  id : String
  symbol : String
  name : String
  current_price : Option Dec
  price_change_percentage_24h : Option ℚ
  market_cap : Option Dec
  market_cap_rank : Option Int
  circulating_supply : Option Dec
  max_supply : Option Dec
  description : Option String
  image_url : Option String
  last_updated : Option Nat
  created_at : Nat
deriving Repr, DecidableEq

/-- Database row of the `portfolio_entries` table. -/
structure PortfolioEntry where
  id : Nat
  coin_id : String
  amount : Dec
  updated_at : Nat
  created_at : Nat
deriving Repr, DecidableEq

/-- State of the relational store as one ORM session sees it: the two
tables plus the auto-increment counter for portfolio entry ids.
Amounts are held as exact decimals only within a session; the schema
persists them in binary-float `REAL` columns, an effect applied at the
session boundary by `commitDB` below. -/
structure DB where
  coins : List Coin
  entries : List PortfolioEntry
  nextEntryId : Nat
deriving Repr, DecidableEq

/-- Model of `PortfolioRepository.get_coin`. -/
def getCoin (db : DB) (coin_id : String) : Option Coin :=
  db.coins.find? (fun c => c.id == coin_id)

/-- Model of `PortfolioRepository.get_entry_by_id`. -/
def getEntryById (db : DB) (entry_id : Nat) : Option PortfolioEntry :=
  db.entries.find? (fun e => e.id == entry_id)

/-- Model of `PortfolioRepository.get_entry_by_coin_id`. -/
def getEntryByCoinId (db : DB) (coin_id : String) : Option PortfolioEntry :=
  db.entries.find? (fun e => e.coin_id == coin_id)

/-- Model of `PortfolioRepository.create_coin` (the incoming price is
already a `Decimal` at every call site, so `standardize_decimal` is the
identity on it). -/
def createCoin (db : DB) (coin : Coin) : DB :=
  { db with coins := db.coins ++ [coin] }

/-- Model of `PortfolioRepository.create_portfolio_entry`. -/
def createPortfolioEntry (db : DB) (coin_id : String) (amount : Dec) (now : Nat) : DB :=
  { db with
    entries := db.entries ++ [⟨db.nextEntryId, coin_id, amount, now, now⟩],
    nextEntryId := db.nextEntryId + 1 }

/-- Model of `PortfolioRepository.update_entry_amount`: sets the amount
(standardized; the call sites pass `Decimal` values, on which
standardization is the identity) and bumps the update timestamp. -/
def updateEntryAmount (db : DB) (entry_id : Nat) (new_amount : Dec) (now : Nat) : DB :=
  { db with
    entries := db.entries.map (fun e =>
      if e.id == entry_id then { e with amount := new_amount, updated_at := now } else e) }

/-- Model of `PortfolioRepository.delete_entry`. -/
def deleteEntry (db : DB) (entry_id : Nat) : DB :=
  { db with entries := db.entries.eraseP (fun e => e.id == entry_id) }

/-- Model of `PortfolioRepository.update_coin_price`: normalizes the
price through `standardize_decimal`, conditionally overwrites the 24h
change, stamps `last_updated`, and touches nothing else. `none` models
the `ValueError` raised when the price cannot be standardized. -/
def update_coin_price (coin : Coin) (price : DecimalValue) (price_change : Option ℚ)
    (now : Nat) : Option Coin :=
  (standardize_decimal price).map (fun p =>
    { coin with
      current_price := some p,
      price_change_percentage_24h :=
        match price_change with
        | some c => some c
        | none => coin.price_change_percentage_24h,
      last_updated := some now })

/-- Round-half-to-even division of naturals: the rounding used both by
IEEE-754 binary storage and by C `printf` when formatting the exact
stored value. -/
def rnddivNat (a b : ℕ) : ℕ :=
  let q := a / b
  let r := a % b
  if 2 * r < b then q
  else if b < 2 * r then q + 1
  else if q % 2 = 0 then q else q + 1

/-- Floor of the base-2 logarithm of a positive natural, computed by
structural recursion on a fuel argument so that it evaluates inside the
kernel. -/
def log2floor : ℕ → ℕ → ℕ
  | 0, _ => 0
  | fuel + 1, n => if n < 2 then 0 else log2floor fuel (n / 2) + 1

/-- Floor of the base-2 logarithm of `p / q`, for positive naturals. -/
def ilog2 (p q : ℕ) : ℤ :=
  let d : ℤ := (log2floor p p : ℤ) - (log2floor q q : ℤ)
  if 0 ≤ d then (if q * 2 ^ d.toNat ≤ p then d else d - 1)
  else (if q ≤ p * 2 ^ (-d).toNat then d else d - 1)

/-- Binary32 (`float4`) rounding of the positive rational `p / q` as a
significand–exponent pair `(n, e)` denoting `n * 2 ^ e`: round to
nearest with ties to even, 24-bit significand. The exponent range
(sub-normals, overflow) is not modelled — portfolio amounts and prices
lie well inside the normal range. -/
def float4PosBits (p q : ℕ) : ℕ × ℤ :=
  let e : ℤ := ilog2 p q - 23
  let n : ℕ :=
    if 0 ≤ e then rnddivNat p (q * 2 ^ e.toNat)
    else rnddivNat (p * 2 ^ (-e).toNat) q
  (n, e)

/-- What the next session reads from a committed `REAL` column holding
the binary value `n * 2 ^ e`: the SQLAlchemy `asdecimal` result
processor formats the float as `"%.10f"` (`decimal_return_scale`
defaults to 10 for the mapped type) and builds a `Decimal` from it,
that is, it rounds the exact stored value to 10 fractional decimal
digits. -/
def realReadBits (n : ℕ) (e : ℤ) : Dec :=
  if 0 ≤ e then ⟨(n * 2 ^ e.toNat * 10 ^ 10 : ℕ), 10⟩
  else ⟨(rnddivNat (n * 10 ^ 10) (2 ^ (-e).toNat) : ℕ), 10⟩

/-- The round trip a persisted amount takes between two requests.
`db/models.py` declares `amount` as `REAL(precision=18, asdecimal=True)`
— a PostgreSQL `float4` column — so committing stores the `Decimal` as
a binary32 float, and the next session reads it back through the
scale-10 `asdecimal` processor as `Decimal("%.10f" % value)`. -/
def realColumnRoundtrip (d : Dec) : Dec :=
  if d.m = 0 then ⟨0, 10⟩
  else if 0 < d.m then
    let bits := float4PosBits d.m.toNat (10 ^ d.e)
    realReadBits bits.1 bits.2
  else
    let bits := float4PosBits (-d.m).toNat (10 ^ d.e)
    let r := realReadBits bits.1 bits.2
    ⟨-r.m, r.e⟩

/-- Committing a session: every portfolio-entry amount is persisted
into its binary-float `REAL` column and is seen by the next session
through the decimal read-back. (The coin price columns are `REAL` as
well; only the entry amounts matter to the claims below.) -/
def commitDB (db : DB) : DB :=
  { db with entries := db.entries.map (fun e =>
      { e with amount := realColumnRoundtrip e.amount }) }

/-- Pydantic `CoinDetail` schema (`schemas/models.py`). -/
structure CoinDetail where
  id : String
  symbol : String
  name : String
  current_price : Option Dec
  price_change_percentage_24h : Option ℚ
  last_updated : Option Nat
  created_at : Nat
  market_cap : Option Dec
  market_cap_rank : Option Int
  circulating_supply : Option Dec
  max_supply : Option Dec
  description : Option String
  image_url : Option String
deriving Repr, DecidableEq

/-- The coin row built from `coin_model.model_dump()` in
`add_coin_to_portfolio` and handed to `create_coin`. -/
def CoinDetail.toCoin (d : CoinDetail) : Coin :=
  { id := d.id, symbol := d.symbol, name := d.name,
    current_price := d.current_price,
    price_change_percentage_24h := d.price_change_percentage_24h,
    market_cap := d.market_cap, market_cap_rank := d.market_cap_rank,
    circulating_supply := d.circulating_supply, max_supply := d.max_supply,
    description := d.description, image_url := d.image_url,
    last_updated := d.last_updated, created_at := d.created_at }

/-- Model of `PortfolioService.add_coin_to_portfolio`. `fetch` stands
for `coingecko_service.get_coin_details`; `none` from it models the
exception that aborts the call when the coin is unknown upstream.
Step one ensures the coin row exists; step two merges into an existing
entry by exact decimal addition or creates a new entry; the final read
mirrors `get_refreshed_entry`. -/
def addCoinToPortfolio (fetch : String → Option CoinDetail) (db : DB)
    (coin_id : String) (amount : Dec) (now : Nat) :
    Option (DB × Option PortfolioEntry) :=
  -- first nested transaction: ensure the coin exists
  let step1 : Option DB :=
    match getCoin db coin_id with
    | some _ => some db
    | none =>
      match fetch coin_id with
      | none => none
      | some d => some (createCoin db d.toCoin)
  match step1 with
  | none => none
  | some db1 =>
    -- second nested transaction: create or merge the portfolio entry
    let db2 : DB :=
      match getEntryByCoinId db1 coin_id with
      | some e => updateEntryAmount db1 e.id (e.amount.add amount) now
      | none => createPortfolioEntry db1 coin_id amount now
    some (db2, getEntryByCoinId db2 coin_id)

/-- Two add requests for the same coin in consecutive sessions, the
first committed before the second begins — the flow of the spec
scenario "adding amount A then amount B for the same coin_id". The
commit sends the first amount through its binary-float `REAL` column
before the second request reads it back. -/
def addTwiceAcrossSessions (fetch : String → Option CoinDetail) (db : DB)
    (coin_id : String) (a b : Dec) (now1 now2 : Nat) :
    Option (DB × Option PortfolioEntry) :=
  match addCoinToPortfolio fetch db coin_id a now1 with
  | none => none
  | some (db1, _) => addCoinToPortfolio fetch (commitDB db1) coin_id b now2

/-- Model of `PortfolioService.update_portfolio_entry`: a missing entry
id yields the distinguished `none` outcome with the store untouched;
otherwise the amount is replaced and a refreshed row returned. -/
def updatePortfolioEntry (db : DB) (entry_id : Nat) (amount : Dec) (now : Nat) :
    DB × Option PortfolioEntry :=
  match getEntryById db entry_id with
  | none => (db, none)
  | some e =>
    let db1 := updateEntryAmount db e.id amount now
    (db1, getEntryById db1 entry_id)

/-- Model of `PortfolioService.remove_portfolio_entry`: a missing entry
id yields `false` with the store untouched; otherwise the row is
deleted and `true` returned. -/
def removePortfolioEntry (db : DB) (entry_id : Nat) : DB × Bool :=
  match getEntryById db entry_id with
  | none => (db, false)
  | some e => (deleteEntry db e.id, true)

/-- One iteration of the `refresh_coin_prices` loop over a single held
coin. Any exception inside the per-coin nested transaction — the
upstream fetch failing, or the price update raising — is caught by the
`except` clause, leaving the row unchanged and the counter unbumped.
A fetched detail without a current price is skipped and not counted. -/
def refreshStep (fetch : String → Option CoinDetail) (now : Nat) (coin : Coin) :
    Nat × Coin :=
  match fetch coin.id with
  | none => (0, coin)
  | some d =>
    match d.current_price with
    | none => (0, coin)
    | some p =>
      match update_coin_price coin (.dec p) d.price_change_percentage_24h now with
      | none => (0, coin)
      | some c => (1, c)

/-- Model of `PortfolioService.refresh_coin_prices` applied to the list
of held coins read in the first transaction: returns the count of coins
successfully updated together with the resulting rows. -/
def refreshCoinPrices (fetch : String → Option CoinDetail) (now : Nat) :
    List Coin → Nat × List Coin
  | [] => (0, [])
  | c :: cs =>
    let r := refreshStep fetch now c
    let rest := refreshCoinPrices fetch now cs
    (r.1 + rest.1, r.2 :: rest.2)

/-- Whether the refresh loop updates a given coin: the detail fetch
succeeds and carries a current price. -/
def refreshSucceeds (fetch : String → Option CoinDetail) (coin : Coin) : Bool :=
  match fetch coin.id with
  | none => false
  | some d => d.current_price.isSome

/-- Pydantic `CoinBase` schema: id, symbol, name. -/
structure CoinBase where
  id : String
  symbol : String
  name : String
deriving Repr, DecidableEq

/-- A raw coins-list payload entry as stored in the cache or returned
by the upstream list endpoint: each required field may be absent or of
the wrong type, modelled as `none`. -/
structure RawCoin where
  id? : Option String
  symbol? : Option String
  name? : Option String
deriving Repr, DecidableEq

/-- Model of `CoinBase.model_validate` on a raw entry: all three
required fields must be present. -/
def parseCoinBase (r : RawCoin) : Option CoinBase :=
  match r.id?, r.symbol?, r.name? with
  | some i, some s, some n => some ⟨i, s, n⟩
  | _, _, _ => none

/-- Model of `CoinGeckoService.get_coins_list`.
Inputs: the `force_refresh` flag, the deserialized cache slot under the
coins-list key (`none` = absent or expired), and the upstream response
(`none` = transport error, which propagates). Output: the parsed list
together with the cache slot as left after the call; `.error` models an
exception escaping to the caller.
On a truthy cache hit each cached entry is validated by a bare list
comprehension, so a single invalid entry raises; on the fetch path the
per-entry `try` drops failing entries. -/
def getCoinsList (force_refresh : Bool) (cached : Option (List RawCoin))
    (api : Option (List RawCoin)) :
    Except Unit (List CoinBase × Option (List RawCoin)) :=
  let fetchPath : Except Unit (List CoinBase × Option (List RawCoin)) :=
    match api with
    | none => .error ()
    | some data => .ok (data.filterMap parseCoinBase, some data)
  if force_refresh then fetchPath
  else
    match cached with
    | none => fetchPath
    | some l =>
      if l.isEmpty then fetchPath  -- an empty list is falsy: treated as a miss
      else
        match l.mapM parseCoinBase with
        | none => .error ()
        | some parsed => .ok (parsed, some l)

/-- A raw per-coin detail record, as stored in the per-coin cache slot
or assembled as `processed_data`: every field may be absent. -/
structure RawDetail where
  id? : Option String
  symbol? : Option String
  name? : Option String
  created_at? : Option Nat
  current_price : Option Dec
  price_change_percentage_24h : Option ℚ
  last_updated : Option Nat
  market_cap : Option Dec
  market_cap_rank : Option Int
  circulating_supply : Option Dec
  max_supply : Option Dec
  description : Option String
  image_url : Option String
deriving Repr, DecidableEq

/-- Model of validating a raw record against the `CoinDetail` shape
(`CoinDetail(**cached_data)` / `CoinDetail.model_validate`): the
required fields id, symbol, name and created_at must be present, the
remainder are optional. -/
def validateCoinDetail (r : RawDetail) : Option CoinDetail :=
  match r.id?, r.symbol?, r.name?, r.created_at? with
  | some i, some s, some n, some t =>
    some { id := i, symbol := s, name := n, created_at := t,
           current_price := r.current_price,
           price_change_percentage_24h := r.price_change_percentage_24h,
           last_updated := r.last_updated, market_cap := r.market_cap,
           market_cap_rank := r.market_cap_rank,
           circulating_supply := r.circulating_supply,
           max_supply := r.max_supply, description := r.description,
           image_url := r.image_url }
  | _, _, _, _ => none

/-- Model of `coin_detail.model_dump()`, the record written back to the
per-coin cache slot. -/
def dumpCoinDetail (d : CoinDetail) : RawDetail :=
  { id? := some d.id, symbol? := some d.symbol, name? := some d.name,
    created_at? := some d.created_at, current_price := d.current_price,
    price_change_percentage_24h := d.price_change_percentage_24h,
    last_updated := d.last_updated, market_cap := d.market_cap,
    market_cap_rank := d.market_cap_rank,
    circulating_supply := d.circulating_supply, max_supply := d.max_supply,
    description := d.description, image_url := d.image_url }

/-- The nested `market_data` object of the upstream detail response. -/
structure MarketData where
  current_price_usd : Option Dec
  market_cap_usd : Option Dec
  market_cap_rank : Option Int
  price_change_percentage_24h : Option ℚ
  circulating_supply : Option Dec
  max_supply : Option Dec
deriving Repr, DecidableEq

/-- The upstream per-coin detail response; absent nested objects are
tolerated (`coin_api_data.get(..., \x7b\x7d).get(...)`). -/
structure ApiCoinResponse where
  id : Option String
  symbol : Option String
  name : Option String
  market_data : Option MarketData
  image_large : Option String
  description_en : Option String
  last_updated : Option Nat
deriving Repr, DecidableEq

/-- Model of assembling `processed_data` in `get_coin_details`: string
fields default to the empty string, nested lookups default to null, and
a fresh creation timestamp is stamped. -/
def processApiData (r : ApiCoinResponse) (now : Nat) : RawDetail :=
  { id? := some (r.id.getD ""), symbol? := some (r.symbol.getD ""),
    name? := some (r.name.getD ""),
    current_price := r.market_data.bind (fun m => m.current_price_usd),
    market_cap := r.market_data.bind (fun m => m.market_cap_usd),
    market_cap_rank := r.market_data.bind (fun m => m.market_cap_rank),
    price_change_percentage_24h :=
      r.market_data.bind (fun m => m.price_change_percentage_24h),
    circulating_supply := r.market_data.bind (fun m => m.circulating_supply),
    max_supply := r.market_data.bind (fun m => m.max_supply),
    image_url := r.image_large, description := r.description_en,
    last_updated := r.last_updated, created_at? := some now }

/-- Model of `CoinGeckoService.get_coin_details` for one coin id.
Inputs: the deserialized per-coin cache slot, the upstream response
(`none` = transport error), and the current time. Output: the detail
and the cache slot after the call, or `.error` for an exception.
A cached record that validates is returned as is; one that fails
validation is logged and control falls through to the fetch path, whose
own validation failure is fatal; a fetched detail is written back to
the cache slot. -/
def getCoinDetails (cached : Option RawDetail) (api : Option ApiCoinResponse)
    (now : Nat) : Except Unit (CoinDetail × Option RawDetail) :=
  let fetchPath : Except Unit (CoinDetail × Option RawDetail) :=
    match api with
    | none => .error ()
    | some resp =>
      match validateCoinDetail (processApiData resp now) with
      | none => .error ()
      | some d => .ok (d, some (dumpCoinDetail d))
  match cached with
  | none => fetchPath
  | some r =>
    match validateCoinDetail r with
    | some d => .ok (d, some r)
    | none => fetchPath

/-- Model of `RedisCache.get`: the raw slot holds serialized bytes, and
the deserializer `loads` stands for `json.loads`. The truthiness test
`if value:` means any falsy raw value — absent key or empty byte
string — yields the not-found indicator. -/
def redisGet {α : Type} (loads : String → α) (raw : Option String) : Option α :=
  match raw with
  | none => none
  | some s => if s = "" then none else some (loads s)

/-- The data of one `PortfolioEntryResponse` as the summary arithmetic
sees it: the held amount, and the related coin price and 24h change
(the coin relation is non-null in the response schema). All decimal
arithmetic in the summary is exact, so values are rationals. -/
structure SEntry where
  amount : ℚ
  price : Option ℚ
  change : Option ℚ
deriving Repr, DecidableEq

/-- Model of the `current_value_usd` computed field: `None` when the
amount or the price is falsy (absent or zero), else `amount * price`. -/
def current_value_usd (e : SEntry) : Option ℚ :=
  if e.amount = 0 then none
  else
    match e.price with
    | none => none
    | some p => if p = 0 then none else some (e.amount * p)

/-- Model of the total-value loop of `get_portfolio_summary`: entries
whose coin price is truthy contribute `amount * price`, the rest
contribute nothing. -/
def total_value_usd (entries : List SEntry) : ℚ :=
  entries.foldl (fun acc e =>
    match e.price with
    | some p => if p = 0 then acc else acc + e.amount * p
    | none => acc) 0

/-- Model of the `total_24h_change_percentage` computed field of
`PortfolioSummary` (the trailing `float(...)` conversion is dropped;
`Decimal` division is modelled as exact rational division). -/
def total_24h_change_percentage (entries : List SEntry) : Option ℚ :=
  if entries = [] ∨ total_value_usd entries ≤ 0 then none
  else
    let tv := total_value_usd entries
    let acc := entries.foldl (fun (acc : ℚ × ℚ) e =>
      let value := (current_value_usd e).getD 0
      match e.change with
      | some ch => if 0 < value then (acc.1 + ch * (value / tv), acc.2 + value) else acc
      | none => acc) (0, 0)
    if acc.2 ≤ 0 then none
    else some (acc.1 * (tv / acc.2))

/-- Model of `PortfolioService.get_portfolio_summary`: the total value
and the full entry list handed to `PortfolioSummary`. -/
def getPortfolioSummary (entries : List SEntry) : ℚ × List SEntry :=
  (total_value_usd entries, entries)

/-- Spec-side formula (from the specification text, for refinement
comparison): the exact decimal sum of `amount * price` over the entries
whose price is known; an unknown price contributes zero. -/
def spec_total_value (entries : List SEntry) : ℚ :=
  (entries.map (fun e => e.amount * e.price.getD 0)).sum

/-- Whether an entry participates in the weighted 24h change: it has a
positive current value and a known 24h change. -/
def includedEntry (e : SEntry) : Bool :=
  decide (0 < (current_value_usd e).getD 0) && e.change.isSome

/-- Spec-side formula: sum over participating entries of
`change * (value / total_value)`. -/
def spec_weighted_sum (entries : List SEntry) (tv : ℚ) : ℚ :=
  (entries.map (fun e =>
    if includedEntry e then e.change.getD 0 * ((current_value_usd e).getD 0 / tv)
    else 0)).sum

/-- Spec-side formula: total value carried by the participating
entries. -/
def spec_known_value (entries : List SEntry) : ℚ :=
  (entries.map (fun e =>
    if includedEntry e then (current_value_usd e).getD 0 else 0)).sum

/-- State of a `TokenBucketRateLimiter`: configuration (refill rate in
tokens per second, bucket capacity) plus the mutable token count and
last-refill timestamp. Times are rationals (seconds). -/
structure RL where
  rate : ℚ
  maxTokens : Int
  tokens : ℚ
  lastRefill : ℚ
deriving Repr, DecidableEq

/-- Model of `TokenBucketRateLimiter._refill` at wall-clock time `now`:
credit `elapsed * rate` tokens, capped at capacity. -/
def RL.refill (s : RL) (now : ℚ) : RL :=
  { s with
    tokens := min (s.tokens + (now - s.lastRefill) * s.rate) (s.maxTokens : ℚ),
    lastRefill := now }

/-- Model of `TokenBucketRateLimiter.acquire` entered at time `now`.
A request beyond capacity is rejected up front, before the lock, any
refill, wait or debit. Otherwise: refill; if short of tokens, sleep
`(requested - available) / rate` seconds — `slack ≥ 0` models the
scheduler waking the task no earlier than requested — then refill
again; finally debit. -/
def RL.acquire (s : RL) (tokens : Int) (now : ℚ) (slack : ℚ) : Except String RL :=
  if tokens > s.maxTokens then
    .error "Cannot acquire more than max_tokens tokens"
  else
    let s1 := s.refill now
    let s2 :=
      if s1.tokens < (tokens : ℚ) then
        let wait := ((tokens : ℚ) - s1.tokens) / s1.rate
        s1.refill (now + wait + slack)
      else s1
    .ok { s2 with tokens := s2.tokens - (tokens : ℚ) }

/-- The token-count invariant: never negative, never above capacity. -/
def RL.inv (s : RL) : Prop :=
  0 ≤ s.tokens ∧ s.tokens ≤ (s.maxTokens : ℚ)

/-- A sample coin row used to evaluate theorems on concrete inputs. -/
def sampleCoin : Coin :=
  ⟨"bitcoin", "btc", "Bitcoin", none, some 1, none, none, none, none, none, none, none, 0⟩

/-- A sample coin detail used to evaluate theorems on concrete inputs. -/
def sampleDetail : CoinDetail :=
  ⟨"bitcoin", "btc", "Bitcoin", some ⟨50000, 0⟩, some 2, none, 0, none, none, none, none,
   none, none⟩

/-- A raw coins-list entry that parses. -/
def goodRaw : RawCoin := ⟨some "bitcoin", some "btc", some "Bitcoin"⟩

/-- A raw coins-list entry that fails `CoinBase` validation (missing id). -/
def badRaw : RawCoin := ⟨none, some "eth", some "Ethereum"⟩

/-- A sample upstream detail response. -/
def sampleApiResponse : ApiCoinResponse :=
  ⟨some "bitcoin", some "btc", some "Bitcoin", none, none, none, none⟩

/-- A cached detail record that fails `CoinDetail` validation. -/
def invalidRawDetail : RawDetail :=
  ⟨none, none, none, none, none, none, none, none, none, none, none, none, none⟩

/-- A second held coin, whose upstream detail fetch will fail. -/
def otherCoin : Coin :=
  ⟨"ether", "eth", "Ethereum", none, none, none, none, none, none, none, none, none, 0⟩

/-- A detail-fetch oracle knowing only the sample coin. -/
def sampleFetch : String → Option CoinDetail :=
  fun s => if s = "bitcoin" then some sampleDetail else none

/-- A sample portfolio entry row. -/
def sampleEntry : PortfolioEntry := ⟨1, "bitcoin", ⟨3, 0⟩, 0, 0⟩

/-- A sample database holding one coin and one entry. -/
def sampleDB : DB := ⟨[sampleCoin], [sampleEntry], 2⟩

theorem RL.refill_tokens (s : RL) (now : ℚ) :
    (s.refill now).tokens = min (s.tokens + (now - s.lastRefill) * s.rate) (s.maxTokens : ℚ) := rfl

theorem RL.refill_fields (s : RL) (now : ℚ) :
    (s.refill now).rate = s.rate ∧ (s.refill now).maxTokens = s.maxTokens ∧
    (s.refill now).lastRefill = now := ⟨rfl, rfl, rfl⟩

theorem RL.refill_inv (s : RL) (now : ℚ) (hrate : 0 < s.rate) (hinv : s.inv)
    (hnow : s.lastRefill ≤ now) : (s.refill now).inv := by
  obtain ⟨h0, hc⟩ := hinv
  constructor
  · rw [RL.refill_tokens]
    apply le_min
    · nlinarith
    · linarith
  · rw [show ((s.refill now).maxTokens : ℚ) = (s.maxTokens : ℚ) from rfl, RL.refill_tokens]
    exact min_le_right _ _

/-- C4. For a token-bucket limiter with rate R and capacity C satisfying
the invariant `0 ≤ tokens ≤ C`, every refill and every successful
`acquire n` (entered at a time not before the last refill, with the
sleep possibly overshooting by `slack ≥ 0`) preserves the invariant:
the token count never exceeds the capacity and never goes negative;
in particular the debit of `n` tokens happens only once at least `n`
tokens are available. -/
theorem RL.debit_inv (X : RL) (n : ℚ) (hge : n ≤ X.tokens)
    (hle : X.tokens ≤ (X.maxTokens : ℚ)) (hn : 0 ≤ n) :
    RL.inv { X with tokens := X.tokens - n } := by
  constructor
  · show (0 : ℚ) ≤ X.tokens - n
    linarith
  · show X.tokens - n ≤ (X.maxTokens : ℚ)
    linarith

theorem acquire_preserves_token_invariant (s : RL) (n : Int) (now slack : ℚ)
    (hrate : 0 < s.rate) (hn : 0 ≤ n) (hinv : s.inv)
    (hnow : s.lastRefill ≤ now) (hslack : 0 ≤ slack) :
    (s.refill now).inv ∧ ∀ s', s.acquire n now slack = .ok s' → s'.inv := by
  refine ⟨RL.refill_inv s now hrate hinv hnow, ?_⟩
  intro s' h
  unfold RL.acquire at h
  by_cases hgt : n > s.maxTokens
  · rw [if_pos hgt] at h
    exact absurd h (by simp)
  · rw [if_neg hgt] at h
    dsimp only at h
    push_neg at hgt
    have hcap : (n : ℚ) ≤ (s.maxTokens : ℚ) := by exact_mod_cast hgt
    have hinv1 : (s.refill now).inv := RL.refill_inv s now hrate hinv hnow
    have hncast : (0 : ℚ) ≤ (n : ℚ) := by exact_mod_cast hn
    have hr0 : s.rate ≠ 0 := ne_of_gt hrate
    by_cases hlt : (s.refill now).tokens < (n : ℚ)
    · rw [if_pos hlt] at h
      injection h with h
      subst h
      have hXtok : ((s.refill now).refill
            (now + ((n : ℚ) - (s.refill now).tokens) / (s.refill now).rate + slack)).tokens
          = min ((s.refill now).tokens
              + ((now + ((n : ℚ) - (s.refill now).tokens) / (s.refill now).rate + slack) - now)
                * s.rate)
              ((s.maxTokens : ℚ)) := rfl
      have harith : (s.refill now).tokens
            + ((now + ((n : ℚ) - (s.refill now).tokens) / (s.refill now).rate + slack) - now)
              * s.rate
          = (n : ℚ) + slack * s.rate := by
        have hrr : (s.refill now).rate = s.rate := rfl
        rw [hrr]
        field_simp
        ring
      have hge : (n : ℚ) ≤ ((s.refill now).refill
          (now + ((n : ℚ) - (s.refill now).tokens) / (s.refill now).rate + slack)).tokens := by
        rw [hXtok, harith]
        exact le_min (by nlinarith) hcap
      have hle : ((s.refill now).refill
            (now + ((n : ℚ) - (s.refill now).tokens) / (s.refill now).rate + slack)).tokens
          ≤ ((s.maxTokens : ℚ)) := by
        rw [hXtok]
        exact min_le_right _ _
      exact RL.debit_inv _ _ hge hle hncast
    · rw [if_neg hlt] at h
      injection h with h
      subst h
      push_neg at hlt
      exact RL.debit_inv _ _ hlt hinv1.2 hncast

/-- C5. Requesting more tokens than the bucket capacity is rejected
immediately with a `ValueError` — the guard runs before the lock, any
refill, wait or debit — while a request of at most the capacity is
never rejected by that guard (the model call completes). -/
theorem acquire_over_capacity_rejected (s : RL) (n : Int) (now slack : ℚ) :
    (n > s.maxTokens →
      s.acquire n now slack = .error "Cannot acquire more than max_tokens tokens") ∧
    (n ≤ s.maxTokens → (s.acquire n now slack).isOk = true) := by
  constructor
  · intro h
    unfold RL.acquire
    rw [if_pos h]
  · intro h
    unfold RL.acquire
    rw [if_neg (not_lt.mpr h)]
    rfl

/-- C10. The price update of `update_coin_price` writes exactly the
current price (normalized to a decimal) and the freshness timestamp,
overwrites the 24h change only when one is supplied — keeping the
stored one when the argument is absent — and leaves every other column
of the coin row unchanged. -/
theorem update_coin_price_frame (coin : Coin) (price : DecimalValue) (p : Dec)
    (price_change : Option ℚ) (now : Nat)
    (hp : standardize_decimal price = some p) :
    ∃ c, update_coin_price coin price price_change now = some c ∧
      c.current_price = some p ∧
      c.last_updated = some now ∧
      (price_change = none →
        c.price_change_percentage_24h = coin.price_change_percentage_24h) ∧
      (∀ ch, price_change = some ch → c.price_change_percentage_24h = some ch) ∧
      c.id = coin.id ∧ c.symbol = coin.symbol ∧ c.name = coin.name ∧
      c.market_cap = coin.market_cap ∧ c.market_cap_rank = coin.market_cap_rank ∧
      c.circulating_supply = coin.circulating_supply ∧
      c.max_supply = coin.max_supply ∧ c.description = coin.description ∧
      c.image_url = coin.image_url ∧ c.created_at = coin.created_at := by
  refine ⟨{ coin with
      current_price := some p,
      price_change_percentage_24h :=
        match price_change with
        | some c => some c
        | none => coin.price_change_percentage_24h,
      last_updated := some now }, ?_, rfl, rfl, ?_, ?_, rfl, rfl, rfl, rfl,
    rfl, rfl, rfl, rfl, rfl, rfl⟩
  · unfold update_coin_price
    rw [hp]
    rfl
  · intro h
    subst h
    rfl
  · intro ch h
    subst h
    rfl

/-- Witness for C4: a fresh bucket with rate 1 and capacity 1,
acquiring one token at time 1. -/
theorem acquire_preserves_token_invariant_witness :
    (0 : ℚ) < (1 : ℚ) ∧ RL.inv ⟨1, 1, 1, 0⟩ ∧
    ((RL.refill ⟨1, 1, 1, 0⟩ 1).inv ∧
      ∀ s', RL.acquire ⟨1, 1, 1, 0⟩ 1 1 0 = .ok s' → s'.inv) :=
  ⟨zero_lt_one, ⟨zero_le_one, by simp⟩,
    acquire_preserves_token_invariant ⟨1, 1, 1, 0⟩ 1 1 0 zero_lt_one (by decide)
      ⟨zero_le_one, by simp⟩ zero_le_one (le_refl 0)⟩

/-- Witness for C5: on a bucket of capacity 1, `acquire 2` is rejected
immediately and `acquire 1` is not. -/
theorem acquire_over_capacity_rejected_witness :
    RL.acquire ⟨1, 1, 1, 0⟩ 2 0 0 = .error "Cannot acquire more than max_tokens tokens" ∧
    (RL.acquire ⟨1, 1, 1, 0⟩ 1 0 0).isOk = true :=
  ⟨(acquire_over_capacity_rejected ⟨1, 1, 1, 0⟩ 2 0 0).1 (by decide),
   (acquire_over_capacity_rejected ⟨1, 1, 1, 0⟩ 1 0 0).2 (by decide)⟩

/-- Witness for C10: updating the sample coin with price 5 and no
supplied 24h change. -/
theorem update_coin_price_frame_witness :
    standardize_decimal (.dec ⟨5, 0⟩) = some ⟨5, 0⟩ ∧
    (∃ c, update_coin_price sampleCoin (.dec ⟨5, 0⟩) none 7 = some c ∧
      c.current_price = some ⟨5, 0⟩ ∧
      c.last_updated = some 7 ∧
      ((none : Option ℚ) = none →
        c.price_change_percentage_24h = sampleCoin.price_change_percentage_24h) ∧
      (∀ ch, (none : Option ℚ) = some ch → c.price_change_percentage_24h = some ch) ∧
      c.id = sampleCoin.id ∧ c.symbol = sampleCoin.symbol ∧ c.name = sampleCoin.name ∧
      c.market_cap = sampleCoin.market_cap ∧
      c.market_cap_rank = sampleCoin.market_cap_rank ∧
      c.circulating_supply = sampleCoin.circulating_supply ∧
      c.max_supply = sampleCoin.max_supply ∧ c.description = sampleCoin.description ∧
      c.image_url = sampleCoin.image_url ∧ c.created_at = sampleCoin.created_at) :=
  ⟨rfl, update_coin_price_frame sampleCoin (.dec ⟨5, 0⟩) ⟨5, 0⟩ none 7 rfl⟩

/-- Counterexample for C2: on the cache-hit path a single cached entry
that fails `CoinBase` validation aborts the whole `get_coins_list`
call, even though the other cached entry parses — the claimed
drop-and-continue behaviour does not hold there. -/
theorem coins_list_cache_hit_aborts_on_bad_entry :
    parseCoinBase goodRaw = some ⟨"bitcoin", "btc", "Bitcoin"⟩ ∧
    parseCoinBase badRaw = none ∧
    getCoinsList false (some [goodRaw, badRaw]) (some [goodRaw, badRaw]) = .error () :=
  ⟨rfl, rfl, rfl⟩

/-- C2 (amended). On the fresh-fetch path — `force_refresh` set, or a
cache miss — every upstream entry that fails to parse is dropped and
the successfully parsed remainder is returned; a bad entry never makes
the call fail. On the cache-hit path this does not hold: one invalid
cached entry aborts the whole call. -/
theorem coins_list_fetch_path_drops_bad_entries (cached : Option (List RawCoin))
    (api : Option (List RawCoin)) (data : List RawCoin) (h : api = some data) :
    getCoinsList true cached api = .ok (data.filterMap parseCoinBase, some data) ∧
    getCoinsList false none api = .ok (data.filterMap parseCoinBase, some data) := by
  subst h
  exact ⟨rfl, rfl⟩

/-- Witness for the amended C2: the fetch path on a payload with one
good and one bad entry returns just the parsed good entry. -/
theorem coins_list_fetch_path_witness :
    getCoinsList true none (some [goodRaw, badRaw])
      = .ok ([goodRaw, badRaw].filterMap parseCoinBase, some [goodRaw, badRaw]) ∧
    getCoinsList false none (some [goodRaw, badRaw])
      = .ok ([goodRaw, badRaw].filterMap parseCoinBase, some [goodRaw, badRaw]) :=
  coins_list_fetch_path_drops_bad_entries none (some [goodRaw, badRaw])
    [goodRaw, badRaw] rfl

/-- C3. When the per-coin cache slot holds a record that fails
`CoinDetail` validation, `get_coin_details` does not propagate the
validation error: it behaves exactly as on a cache miss, and when the
upstream fetch succeeds it returns the freshly fetched, validated
detail and overwrites the cache slot with its dump. -/
theorem coin_details_invalid_cache_refetches (r : RawDetail)
    (api : Option ApiCoinResponse) (now : Nat)
    (hr : validateCoinDetail r = none) :
    getCoinDetails (some r) api now = getCoinDetails none api now ∧
    ∀ resp, api = some resp →
      ∃ d, validateCoinDetail (processApiData resp now) = some d ∧
        getCoinDetails (some r) (some resp) now = .ok (d, some (dumpCoinDetail d)) := by
  constructor
  · simp [getCoinDetails, hr]
  · intro resp h
    subst h
    exact ⟨_, rfl, by simp [getCoinDetails, hr]; rfl⟩

/-- Witness for C3: an empty cached record is invalid and the call
falls through to the sample upstream response. -/
theorem coin_details_invalid_cache_witness :
    validateCoinDetail invalidRawDetail = none ∧
    (getCoinDetails (some invalidRawDetail) (some sampleApiResponse) 3
        = getCoinDetails none (some sampleApiResponse) 3 ∧
      ∀ resp, (some sampleApiResponse : Option ApiCoinResponse) = some resp →
        ∃ d, validateCoinDetail (processApiData resp 3) = some d ∧
          getCoinDetails (some invalidRawDetail) (some resp) 3
            = .ok (d, some (dumpCoinDetail d))) :=
  ⟨rfl, coin_details_invalid_cache_refetches invalidRawDetail (some sampleApiResponse) 3 rfl⟩

/-- C9. Falsy values act as cache misses at both layers: `RedisCache.get`
returns the not-found indicator for an absent key and equally for a
stored raw value that is falsy (empty byte string), while a truthy raw
value is deserialized; and `get_coins_list` treats a cached empty list
exactly as a miss — it calls the upstream API and overwrites the cache
slot with the fresh payload instead of returning the cached empty
list. -/
theorem falsy_cache_values_behave_as_miss {α : Type} (loads : String → α)
    (api : Option (List RawCoin)) (data : List RawCoin) (s : String)
    (hs : s ≠ "") (h : api = some data) :
    redisGet loads none = none ∧
    redisGet loads (some "") = none ∧
    redisGet loads (some s) = some (loads s) ∧
    getCoinsList false (some []) api = getCoinsList false none api ∧
    getCoinsList false (some []) api = .ok (data.filterMap parseCoinBase, some data) := by
  subst h
  exact ⟨rfl, by simp [redisGet], by simp [redisGet, hs], rfl, rfl⟩

/-- Witness for C9 at concrete inputs. -/
theorem falsy_cache_values_witness :
    ("x" : String) ≠ "" ∧
    (redisGet (fun t => t) none = none ∧
      redisGet (fun t => t) (some "") = none ∧
      redisGet (fun t => t) (some "x") = some "x" ∧
      getCoinsList false (some []) (some [goodRaw]) = getCoinsList false none (some [goodRaw]) ∧
      getCoinsList false (some []) (some [goodRaw])
        = .ok ([goodRaw].filterMap parseCoinBase, some [goodRaw])) :=
  ⟨by decide, falsy_cache_values_behave_as_miss (fun t => t) (some [goodRaw]) [goodRaw] "x"
    (by decide) rfl⟩

theorem refreshStep_fst (fetch : String → Option CoinDetail) (now : Nat) (c : Coin) :
    (refreshStep fetch now c).1 = if refreshSucceeds fetch c then 1 else 0 := by
  unfold refreshStep refreshSucceeds
  cases h : fetch c.id with
  | none => rfl
  | some d =>
    cases hp : d.current_price with
    | none => simp [hp]
    | some p => simp [hp, update_coin_price, standardize_decimal]

/-- C6. The price-refresh loop treats each held coin independently: the
returned count is exactly the number of coins whose detail fetch
succeeded with a price present; a fetched detail carrying no current
price leaves the coin unchanged and uncounted; and a coin whose fetch
raises is skipped unchanged without aborting the rest — the refresh of
the coins before and after it proceeds exactly as if it were processed
alone. The loop itself is a total function: no failure escapes it. -/
theorem refresh_prices_isolates_failures (fetch : String → Option CoinDetail) (now : Nat) :
    (∀ coins, (refreshCoinPrices fetch now coins).1 = coins.countP (refreshSucceeds fetch)) ∧
    (∀ coin d, fetch coin.id = some d → d.current_price = none →
      refreshStep fetch now coin = (0, coin)) ∧
    (∀ l1 c l2, fetch c.id = none →
      refreshCoinPrices fetch now (l1 ++ c :: l2)
        = ((refreshCoinPrices fetch now l1).1 + (refreshCoinPrices fetch now l2).1,
           (refreshCoinPrices fetch now l1).2 ++ c :: (refreshCoinPrices fetch now l2).2)) := by
  refine ⟨?_, ?_, ?_⟩
  · intro coins
    induction coins with
    | nil => rfl
    | cons c cs ih =>
      rw [List.countP_cons]
      show (refreshStep fetch now c).1 + (refreshCoinPrices fetch now cs).1 = _
      rw [refreshStep_fst, ih]
      by_cases hc : refreshSucceeds fetch c
      · simp [hc]
        omega
      · simp [hc]
  · intro coin d hd hp
    simp [refreshStep, hd, hp]
  · intro l1 c l2 hc
    induction l1 with
    | nil =>
      show ((refreshStep fetch now c).1 + _, (refreshStep fetch now c).2 :: _) = _
      have hstep : refreshStep fetch now c = (0, c) := by
        unfold refreshStep
        rw [hc]
      rw [hstep]
      rfl
    | cons a l1 ih =>
      show ((refreshStep fetch now a).1 + (refreshCoinPrices fetch now (l1 ++ c :: l2)).1,
        (refreshStep fetch now a).2 :: (refreshCoinPrices fetch now (l1 ++ c :: l2)).2) = _
      rw [ih]
      show _ = ((refreshStep fetch now a).1 + (refreshCoinPrices fetch now l1).1
          + (refreshCoinPrices fetch now l2).1,
        ((refreshStep fetch now a).2 :: (refreshCoinPrices fetch now l1).2)
          ++ c :: (refreshCoinPrices fetch now l2).2)
      rw [Nat.add_assoc]
      rfl

/-- Witness for C6: two held coins, the second of which fails to fetch;
the loop counts one success and keeps the failing coin untouched. -/
theorem refresh_prices_isolates_failures_witness :
    sampleFetch otherCoin.id = none ∧
    ((refreshCoinPrices sampleFetch 7 [sampleCoin, otherCoin]).1
        = List.countP (refreshSucceeds sampleFetch) [sampleCoin, otherCoin] ∧
      refreshCoinPrices sampleFetch 7 ([sampleCoin] ++ otherCoin :: [])
        = ((refreshCoinPrices sampleFetch 7 [sampleCoin]).1
            + (refreshCoinPrices sampleFetch 7 []).1,
           (refreshCoinPrices sampleFetch 7 [sampleCoin]).2
            ++ otherCoin :: (refreshCoinPrices sampleFetch 7 []).2)) ∧
    (refreshCoinPrices sampleFetch 7 [sampleCoin, otherCoin]).1 = 1 :=
  ⟨rfl,
   ⟨(refresh_prices_isolates_failures sampleFetch 7).1 [sampleCoin, otherCoin],
    (refresh_prices_isolates_failures sampleFetch 7).2.2 [sampleCoin] otherCoin [] rfl⟩,
   rfl⟩

theorem find?_eraseP_eq_none {α : Type} (p : α → Bool) :
    ∀ l : List α, l.countP p ≤ 1 → (l.eraseP p).find? p = none := by
  intro l
  induction l with
  | nil => intro _; rfl
  | cons a as ih =>
    intro h
    by_cases hp : p a
    · rw [List.eraseP_cons, hp]
      simp only [cond_true]
      rw [List.find?_eq_none]
      intro x hx hpx
      have hpos : 0 < as.countP p := List.countP_pos_iff.mpr ⟨x, hx, hpx⟩
      rw [List.countP_cons_of_pos _ _ hp] at h
      omega
    · have hp' : p a = false := by simpa using hp
      rw [List.eraseP_cons, hp']
      simp only [cond_false]
      rw [List.find?_cons, hp']
      exact ih (by rw [List.countP_cons_of_neg _ _ (by simp [hp'])] at h; exact h)

/-- C8. On a store whose entry ids are not duplicated: updating or
removing a non-existent entry id returns the distinguished not-found
outcome — `none` for update, `false` for removal — with the persisted
state untouched and no exception escaping; removing an existing entry
id deletes that entry and returns `true`. -/
theorem update_remove_not_found (db : DB) (entry_id : Nat) (amount : Dec) (now : Nat)
    (huniq : db.entries.countP (fun e => e.id == entry_id) ≤ 1) :
    (getEntryById db entry_id = none →
      updatePortfolioEntry db entry_id amount now = (db, none) ∧
      removePortfolioEntry db entry_id = (db, false)) ∧
    (∀ e, getEntryById db entry_id = some e →
      (removePortfolioEntry db entry_id).2 = true ∧
      getEntryById (removePortfolioEntry db entry_id).1 entry_id = none) := by
  constructor
  · intro h
    constructor
    · simp [updatePortfolioEntry, h]
    · simp [removePortfolioEntry, h]
  · intro e he
    have he' : db.entries.find? (fun x => x.id == entry_id) = some e := he
    have hid : e.id = entry_id := by simpa using List.find?_some he'
    have h2 : removePortfolioEntry db entry_id = (deleteEntry db e.id, true) := by
      simp [removePortfolioEntry, he]
    rw [h2]
    refine ⟨rfl, ?_⟩
    show (db.entries.eraseP (fun x => x.id == e.id)).find? (fun x => x.id == entry_id) = none
    rw [hid]
    exact find?_eraseP_eq_none _ _ huniq

/-- Witness for C8: on the sample store, id 5 is absent and id 1 is
present. -/
theorem update_remove_not_found_witness :
    (getEntryById sampleDB 5 = none ∧
      updatePortfolioEntry sampleDB 5 ⟨7, 0⟩ 1 = (sampleDB, none) ∧
      removePortfolioEntry sampleDB 5 = (sampleDB, false)) ∧
    ((removePortfolioEntry sampleDB 1).2 = true ∧
      getEntryById (removePortfolioEntry sampleDB 1).1 1 = none) :=
  ⟨⟨rfl, (update_remove_not_found sampleDB 5 ⟨7, 0⟩ 1 (by decide)).1 rfl⟩,
   (update_remove_not_found sampleDB 1 ⟨7, 0⟩ 1 (by decide)).2 sampleEntry rfl⟩

/-- C1 (code-bug evaluation). The claim demands that adding "0.1" then
"0.2" of one coin leaves a single entry whose amount is exactly "0.3",
the amounts never passing through a binary floating-point
representation. The service-layer arithmetic honours this (in-memory
decimal addition is exact, see `Dec.toRat_add`), but the schema does
not: `amount` is a `REAL` — binary `float4` — column, so the first
committed amount is float-roundtripped before the second add reads it
back. `Decimal("0.1")` returns as `Decimal("0.1000000015")`, and the
two adds leave the entry amount `0.3000000015`, not `0.3`. -/
theorem add_coin_float_column_artifact :
    Dec.ofString? "0.1" = some ⟨1, 1⟩ ∧
    Dec.ofString? "0.2" = some ⟨2, 1⟩ ∧
    Dec.ofString? "0.3" = some ⟨3, 1⟩ ∧
    realColumnRoundtrip ⟨1, 1⟩ = ⟨1000000015, 10⟩ ∧
    addTwiceAcrossSessions sampleFetch ⟨[], [], 0⟩ "bitcoin" ⟨1, 1⟩ ⟨2, 1⟩ 4 5
      = some (⟨[sampleDetail.toCoin], [⟨0, "bitcoin", ⟨3000000015, 10⟩, 5, 4⟩], 1⟩,
              some ⟨0, "bitcoin", ⟨3000000015, 10⟩, 5, 4⟩) ∧
    (⟨3000000015, 10⟩ : Dec) ≠ ⟨3, 1⟩ ∧
    Dec.toRat ⟨3000000015, 10⟩ ≠ Dec.toRat ⟨3, 1⟩ := by
  refine ⟨by decide, by decide, by decide, by decide, by decide, by decide, ?_⟩
  norm_num [Dec.toRat]

theorem foldl_add_eq_sum {α : Type} (f : α → ℚ) (l : List α) (a : ℚ) :
    l.foldl (fun acc x => acc + f x) a = a + (l.map f).sum := by
  induction l generalizing a with
  | nil => simp
  | cons x xs ih => simp [ih, add_assoc]

theorem total_value_eq_spec (entries : List SEntry) :
    total_value_usd entries = spec_total_value entries := by
  unfold total_value_usd spec_total_value
  have hbody : (fun (acc : ℚ) (e : SEntry) =>
      match e.price with
      | some p => if p = 0 then acc else acc + e.amount * p
      | none => acc)
      = fun (acc : ℚ) (e : SEntry) => acc + e.amount * e.price.getD 0 := by
    funext acc e
    cases hp : e.price with
    | none => simp
    | some p =>
      by_cases h0 : p = 0
      · simp [h0]
      · simp [h0]
  rw [hbody, foldl_add_eq_sum]
  simp

theorem change_fold_eq (entries : List SEntry) (tv : ℚ) (a b : ℚ) :
    entries.foldl (fun (acc : ℚ × ℚ) e =>
      let value := (current_value_usd e).getD 0
      match e.change with
      | some ch => if 0 < value then (acc.1 + ch * (value / tv), acc.2 + value) else acc
      | none => acc) (a, b)
    = (a + spec_weighted_sum entries tv, b + spec_known_value entries) := by
  induction entries generalizing a b with
  | nil => simp [spec_weighted_sum, spec_known_value]
  | cons e es ih =>
    rw [List.foldl_cons]
    have hw : spec_weighted_sum (e :: es) tv
        = (if includedEntry e then e.change.getD 0 * ((current_value_usd e).getD 0 / tv)
           else 0) + spec_weighted_sum es tv := by
      simp [spec_weighted_sum]
    have hk : spec_known_value (e :: es)
        = (if includedEntry e then (current_value_usd e).getD 0 else 0)
          + spec_known_value es := by
      simp [spec_known_value]
    cases hc : e.change with
    | none =>
      have hinc : includedEntry e = false := by simp [includedEntry, hc]
      dsimp only
      rw [ih, hw, hk, hinc]
      simp [add_assoc]
    | some ch =>
      by_cases hv : 0 < (current_value_usd e).getD 0
      · have hinc : includedEntry e = true := by simp [includedEntry, hc, hv]
        dsimp only
        rw [if_pos hv, ih, hw, hk, hinc]
        simp [hc, add_assoc]
      · have hinc : includedEntry e = false := by simp [includedEntry, hc, hv]
        dsimp only
        rw [if_neg hv, ih, hw, hk, hinc]
        simp [add_assoc]

/-- C7. The portfolio summary: its total value is exactly the decimal
sum of `amount * price` over the entries with a known price (an unknown
price contributes zero) while every entry stays in the returned list;
when some entry carries both a positive value and a known 24h change,
the weighted 24h change is the sum of `change * (value / total_value)`
over those entries, rescaled by `total_value / value_with_known_changes`;
and when no entry has both, the result is the unknown outcome `none`,
not zero. -/
theorem portfolio_summary_math (entries : List SEntry) :
    getPortfolioSummary entries = (spec_total_value entries, entries) ∧
    (entries ≠ [] → 0 < total_value_usd entries → 0 < spec_known_value entries →
      total_24h_change_percentage entries
        = some (spec_weighted_sum entries (total_value_usd entries)
            * (total_value_usd entries / spec_known_value entries))) ∧
    ((∀ e ∈ entries, ¬(0 < (current_value_usd e).getD 0 ∧ e.change.isSome = true)) →
      total_24h_change_percentage entries = none) := by
  refine ⟨?_, ?_, ?_⟩
  · unfold getPortfolioSummary
    rw [total_value_eq_spec]
  · intro h1 h2 h3
    unfold total_24h_change_percentage
    rw [if_neg (by
      rintro (h | h)
      · exact h1 h
      · exact absurd h (not_le.mpr h2))]
    dsimp only
    rw [change_fold_eq]
    simp only [zero_add]
    rw [if_neg (not_le.mpr h3)]
  · intro h
    unfold total_24h_change_percentage
    by_cases hfirst : entries = [] ∨ total_value_usd entries ≤ 0
    · rw [if_pos hfirst]
    · rw [if_neg hfirst]
      dsimp only
      rw [change_fold_eq]
      have hskv : spec_known_value entries = 0 := by
        unfold spec_known_value
        have hmap : entries.map (fun e =>
            if includedEntry e then (current_value_usd e).getD 0 else 0)
            = entries.map (fun _ => (0 : ℚ)) := by
          apply List.map_congr_left
          intro e he
          have hne := h e he
          cases hcs : e.change with
          | none => simp [includedEntry, hcs]
          | some ch =>
            have hnv : ¬(0 < (current_value_usd e).getD 0) := by
              intro hv
              exact hne ⟨hv, by simp [hcs]⟩
            simp [includedEntry, hnv]
        rw [hmap]
        simp
      rw [hskv]
      rw [if_pos (by simp)]

/-- Witness for C7: a one-entry portfolio with amount 1, price 2 and
24h change 3 gives a defined weighted change, and a portfolio whose
only entry lacks a price gives the unknown outcome. -/
theorem portfolio_summary_math_witness :
    ([⟨1, some 2, some 3⟩] : List SEntry) ≠ [] ∧
    0 < total_value_usd [⟨1, some 2, some 3⟩] ∧
    0 < spec_known_value [⟨1, some 2, some 3⟩] ∧
    (getPortfolioSummary [⟨1, some 2, some 3⟩]
      = (spec_total_value [⟨1, some 2, some 3⟩], [⟨1, some 2, some 3⟩]) ∧
     total_24h_change_percentage [⟨1, some 2, some 3⟩]
      = some (spec_weighted_sum [⟨1, some 2, some 3⟩] (total_value_usd [⟨1, some 2, some 3⟩])
          * (total_value_usd [⟨1, some 2, some 3⟩] / spec_known_value [⟨1, some 2, some 3⟩]))) ∧
    (∀ e ∈ ([⟨1, none, some 3⟩] : List SEntry),
      ¬(0 < (current_value_usd e).getD 0 ∧ e.change.isSome = true)) ∧
    total_24h_change_percentage [⟨1, none, some 3⟩] = none := by
  have h1 : ([⟨1, some 2, some 3⟩] : List SEntry) ≠ [] := by simp
  have h2 : 0 < total_value_usd [⟨1, some 2, some 3⟩] := by
    simp [total_value_usd]
  have h3 : 0 < spec_known_value [⟨1, some 2, some 3⟩] := by
    simp [spec_known_value, includedEntry, current_value_usd]
  have h4 : ∀ e ∈ ([⟨1, none, some 3⟩] : List SEntry),
      ¬(0 < (current_value_usd e).getD 0 ∧ e.change.isSome = true) := by
    intro e he
    simp at he
    subst he
    simp [current_value_usd]
  exact ⟨h1, h2, h3,
    ⟨(portfolio_summary_math [⟨1, some 2, some 3⟩]).1,
     (portfolio_summary_math [⟨1, some 2, some 3⟩]).2.1 h1 h2 h3⟩,
    h4, (portfolio_summary_math [⟨1, none, some 3⟩]).2.2 h4⟩

end Crypkit
